import Mathlib

/-!
Verification of the rumqttd broker core (`src/broker.rs`) against its
natural-language specification.

The Rust broker is embedded shallowly: the interior-mutable `Broker`
(`Rc<RefCell<...>>` fields) becomes a pure record, and each `&self`
method becomes a function returning the updated record.  `HashMap` is
modelled as an association list with unique keys (insert replaces the
value at an existing key), which preserves every lookup/update
observation the claims depend on.  `VecDeque`/`Vec` become `List`.
The per-client session state and its operations live in `client.rs`,
which is not part of the sources at hand; those are modelled from the
specification and marked as such.
-/

set_option autoImplicit false

namespace Rumqttd

/-- mqtt3 `QoS`. -/
inductive QoS
  | AtMostOnce
  | AtLeastOnce
  | ExactlyOnce
deriving DecidableEq, Repr

/-- mqtt3 `SubscribeTopic`: the subscription key `(topic_path, qos)`. -/
structure SubscribeTopic where
  topic_path : String
  qos : QoS
deriving DecidableEq, Repr

/-- mqtt3 `Publish`.  `PacketIdentifier` is modelled as `Nat`; the payload
bytes as `List Nat`. -/
structure Publish where
  dup : Bool
  qos : QoS
  retain : Bool
  topic_name : String
  pid : Option Nat
  payload : List Nat
deriving DecidableEq, Repr

/-- The client handle as the broker observes it: only the `id` field of
`client::Client` is read by `broker.rs` (`v.id == client.id` comparisons);
the address and the outbound sink do not influence any broker decision.
Cloned handles compare equal, as clones share the id. -/
structure Client where
  id : String
deriving DecidableEq, Repr

/-- mqtt3 `SubscribeReturnCodes`. -/
inductive SubscribeReturnCodes
  | Success (qos : QoS)
  | Failure
deriving DecidableEq, Repr

/-- mqtt3 `Suback`. -/
structure Suback where
  pid : Nat
  return_codes : List SubscribeReturnCodes
deriving DecidableEq, Repr

/-- mqtt3 `Subscribe`: packet id plus the requested `(topic, qos)` pairs. -/
structure Subscribe where
  pid : Nat
  topics : List SubscribeTopic
deriving DecidableEq, Repr

/-- The mqtt3 `Packet` constructors the broker core produces or consumes. -/
inductive Packet
  | Publish (p : Rumqttd.Publish)
  | Puback (pid : Nat)
  | Pubrec (pid : Nat)
  | Pubrel (pid : Nat)
  | Pubcomp (pid : Nat)
  | Suback (s : Rumqttd.Suback)
  | Pingresp
deriving DecidableEq, Repr

/-! ### Association-list model of `HashMap` -/

/-- `HashMap::get`: first (unique) binding of the key. -/
def alLookup {α β : Type} [DecidableEq α] : List (α × β) → α → Option β
  | [], _ => none
  | (a, b) :: t, k => if a = k then some b else alLookup t k

/-- `HashMap::insert`: replace the value at an existing key, otherwise add
a new binding. -/
def alInsert {α β : Type} [DecidableEq α] : List (α × β) → α → β → List (α × β)
  | [], k, v => [(k, v)]
  | (a, b) :: t, k, v => if a = k then (k, v) :: t else (a, b) :: alInsert t k v

/-- `HashMap::remove`. -/
def alErase {α β : Type} [DecidableEq α] : List (α × β) → α → List (α × β)
  | [], _ => []
  | (a, b) :: t, k => if a = k then t else (a, b) :: alErase t k

/-- `HashMap::entry(k).or_insert(d)` followed by an in-place mutation `f`
of the value. -/
def alModifyD {α β : Type} [DecidableEq α] : List (α × β) → α → β → (β → β) → List (α × β)
  | [], k, d, f => [(k, f d)]
  | (a, b) :: t, k, d, f => if a = k then (a, f b) :: t else (a, b) :: alModifyD t k d f

/-! ### Sequence helpers mirroring `Vec` / `VecDeque` operations -/

/-- `Iterator::position(pred)`: index of the first element satisfying the
predicate. -/
def position {α : Type} (p : α → Bool) : List α → Option Nat
  | [] => none
  | x :: t => if p x then some 0 else (position p t).map (· + 1)

/-- `Iterator::position(|v| v.id == id)` over a client list. -/
def position_id (l : List Client) (id : String) : Option Nat :=
  position (fun v => decide (v.id = id)) l

/-- `Iterator::position(|x| x.pid == Some(pkid))` over a publish queue. -/
def position_pid (l : List Publish) (pkid : Nat) : Option Nat :=
  position (fun x => decide (x.pid = some pkid)) l

/-- `Iterator::position(|x| *x == pkid)` over a packet-id queue. -/
def position_pkid (l : List Nat) (pkid : Nat) : Option Nat :=
  position (fun x => decide (x = pkid)) l

/-- `Vec::insert(index, x)`.  In the source the index always comes from a
successful `position`, hence is in range; out of range this total model
appends, which is never reached from the broker code. -/
def listInsertIdx {α : Type} : List α → Nat → α → List α
  | l, 0, x => x :: l
  | [], _ + 1, x => [x]
  | y :: t, n + 1, x => y :: listInsertIdx t n x

/-- `VecDeque::remove(i)`: returns the element at `i` and the queue without
it, or `none` and the unchanged queue when `i` is out of range. -/
def dequeRemove {α : Type} : List α → Nat → Option α × List α
  | [], _ => (none, [])
  | x :: t, 0 => (some x, t)
  | x :: t, n + 1 =>
    let r := dequeRemove t n
    (r.1, x :: r.2)

/-! ### `BrokerState` and `Broker` (`src/broker.rs`) -/

/-- `BrokerState`: the four in-flight queues owned by the broker itself. -/
structure BrokerState where
  incoming_pub : List Publish
  incoming_rec : List Publish
  incoming_rel : List Nat
  incoming_comp : List Nat
deriving DecidableEq, Repr

/-- `BrokerState::new`. -/
def BrokerState.new : BrokerState := ⟨[], [], [], []⟩

/-- `Broker`: active clients, subscriptions, and the broker's own state. -/
structure Broker where
  clients : List (String × Client)
  subscriptions : List (SubscribeTopic × List Client)
  state : BrokerState
deriving DecidableEq, Repr

/-- `Broker::new` (logger omitted: it carries no protocol state). -/
def Broker.new : Broker := ⟨[], [], BrokerState.new⟩

/-- `Broker::add_client`. -/
def add_client (b : Broker) (client : Client) : Broker :=
  { b with clients := alInsert b.clients client.id client }

/-- `Broker::add_subscription_client`: `entry(topic).or_insert(Vec::new())`,
then insert at the position of an existing entry with the same id, else
push at the tail. -/
def add_subscription_client (b : Broker) (topic : SubscribeTopic) (client : Client) : Broker :=
  { b with subscriptions :=
      alModifyD b.subscriptions topic [] (fun clients =>
        match position_id clients client.id with
        | some index => listInsertIdx clients index client
        | none => clients ++ [client]) }

/-- `Broker::remove_subscription_client`. -/
def remove_subscription_client (b : Broker) (topic : SubscribeTopic) (id : String) : Broker :=
  { b with subscriptions :=
      match alLookup b.subscriptions topic with
      | some clients =>
        match position_id clients id with
        | some index => alInsert b.subscriptions topic (clients.eraseIdx index)
        | none => b.subscriptions
      | none => b.subscriptions }

/-- `Broker::get_subscribed_clients`.  The `&self` method mutates nothing;
it is embedded state-passingly (result, broker) so that its frame can be
stated. -/
def get_subscribed_clients (b : Broker) (topic : SubscribeTopic) : List Client × Broker :=
  (match alLookup b.subscriptions topic with
   | some v => v
   | none => [], b)

/-- `Broker::remove_client`: erase from the client table, then remove the
first entry with this id from every subscription value list. -/
def remove_client (b : Broker) (id : String) : Broker :=
  { b with
    clients := alErase b.clients id,
    subscriptions := b.subscriptions.map (fun p =>
      match position_id p.2 id with
      | some index => (p.1, p.2.eraseIdx index)
      | none => p) }

/-! ### Broker queue operations (`store_* / remove_*` on `self.state`) -/

/-- `Broker::store_publish`. -/
def store_publish (s : BrokerState) (publish : Publish) : BrokerState :=
  { s with incoming_pub := s.incoming_pub ++ [publish] }

/-- `Broker::remove_publish`: scan `incoming_pub` for the first pid match,
`VecDeque::remove` it. -/
def remove_publish (s : BrokerState) (pkid : Nat) : Option Publish × BrokerState :=
  match position_pid s.incoming_pub pkid with
  | some i => ((dequeRemove s.incoming_pub i).1,
               { s with incoming_pub := (dequeRemove s.incoming_pub i).2 })
  | none => (none, s)

/-- `Broker::store_record`. -/
def store_record (s : BrokerState) (publish : Publish) : BrokerState :=
  { s with incoming_rec := s.incoming_rec ++ [publish] }

/-- `Broker::remove_record`: the source scans `incoming_pub` for the
position but performs the `VecDeque::remove` on `incoming_rec`
(translated literally). -/
def remove_record (s : BrokerState) (pkid : Nat) : Option Publish × BrokerState :=
  match position_pid s.incoming_pub pkid with
  | some i => ((dequeRemove s.incoming_rec i).1,
               { s with incoming_rec := (dequeRemove s.incoming_rec i).2 })
  | none => (none, s)

/-- `Broker::store_rel`. -/
def store_rel (s : BrokerState) (pkid : Nat) : BrokerState :=
  { s with incoming_rel := s.incoming_rel ++ [pkid] }

/-- `Broker::remove_rel`. -/
def remove_rel (s : BrokerState) (pkid : Nat) : BrokerState :=
  match position_pkid s.incoming_rel pkid with
  | some i => { s with incoming_rel := (dequeRemove s.incoming_rel i).2 }
  | none => s

/-- `Broker::store_comp`. -/
def store_comp (s : BrokerState) (pkid : Nat) : BrokerState :=
  { s with incoming_comp := s.incoming_comp ++ [pkid] }

/-- `Broker::remove_comp`. -/
def remove_comp (s : BrokerState) (pkid : Nat) : BrokerState :=
  match position_pkid s.incoming_comp pkid with
  | some i => { s with incoming_comp := (dequeRemove s.incoming_comp i).2 }
  | none => s

/-! ### Client sessions (`client.rs`, not among the sources: modelled from the spec) -/

/-- Modelled from the spec: the per-client `SessionState` of `client.rs`
(spec appendix 3 and 4.1) — the four in-flight queues owned by a client
session, plus the session's packet-id allocator (spec: a fresh id per
outbound qos>0 publish; the policy itself is not mandated, a counter is
used here). -/
structure SessionState where
  incoming_pub : List Publish
  incoming_rec : List Publish
  incoming_rel : List Nat
  incoming_comp : List Nat
  next_pkid : Nat
deriving DecidableEq, Repr

/-- Modelled from the spec: a fresh session state with all queues empty. -/
def SessionState.new : SessionState := ⟨[], [], [], [], 1⟩

/-- Modelled from the spec: `Client::store_publish` — append to the
session's `incoming_pub`. -/
def client_store_publish (s : SessionState) (publish : Publish) : SessionState :=
  { s with incoming_pub := s.incoming_pub ++ [publish] }

/-- Modelled from the spec: `Client::remove_publish` — remove and return
the first element of the session's `incoming_pub` whose pid matches. -/
def client_remove_publish (s : SessionState) (pkid : Nat) : Option Publish × SessionState :=
  match position_pid s.incoming_pub pkid with
  | some i => ((dequeRemove s.incoming_pub i).1,
               { s with incoming_pub := (dequeRemove s.incoming_pub i).2 })
  | none => (none, s)

/-- Modelled from the spec: `Client::store_record`. -/
def client_store_record (s : SessionState) (publish : Publish) : SessionState :=
  { s with incoming_rec := s.incoming_rec ++ [publish] }

/-- Modelled from the spec: `Client::remove_record` — remove and return
the first element of the session's `incoming_rec` whose pid matches. -/
def client_remove_record (s : SessionState) (pkid : Nat) : Option Publish × SessionState :=
  match position_pid s.incoming_rec pkid with
  | some i => ((dequeRemove s.incoming_rec i).1,
               { s with incoming_rec := (dequeRemove s.incoming_rec i).2 })
  | none => (none, s)

/-- Modelled from the spec: `Client::store_rel`. -/
def client_store_rel (s : SessionState) (pkid : Nat) : SessionState :=
  { s with incoming_rel := s.incoming_rel ++ [pkid] }

/-- Modelled from the spec: `Client::remove_rel`. -/
def client_remove_rel (s : SessionState) (pkid : Nat) : SessionState :=
  match position_pkid s.incoming_rel pkid with
  | some i => { s with incoming_rel := (dequeRemove s.incoming_rel i).2 }
  | none => s

/-- Modelled from the spec: `Client::store_comp`. -/
def client_store_comp (s : SessionState) (pkid : Nat) : SessionState :=
  { s with incoming_comp := s.incoming_comp ++ [pkid] }

/-- Modelled from the spec: `Client::remove_comp`. -/
def client_remove_comp (s : SessionState) (pkid : Nat) : SessionState :=
  match position_pkid s.incoming_comp pkid with
  | some i => { s with incoming_comp := (dequeRemove s.incoming_comp i).2 }
  | none => s

/-- Modelled from the spec: `Client::publish_packet` — construct an
outbound PUBLISH; a fresh packet id is allocated when qos is not
AtMostOnce, else the packet carries no id. -/
def publish_packet (s : SessionState) (topic : String) (qos : QoS) (payload : List Nat)
    (retain dup : Bool) : Publish × SessionState :=
  match qos with
  | QoS.AtMostOnce =>
    ({ dup := dup, qos := qos, retain := retain, topic_name := topic,
       pid := none, payload := payload }, s)
  | _ =>
    ({ dup := dup, qos := qos, retain := retain, topic_name := topic,
       pid := some s.next_pkid, payload := payload },
     { s with next_pkid := s.next_pkid + 1 })

/-- Modelled from the spec: `Client::suback_packet`. -/
def suback_packet (pkid : Nat) (return_codes : List SubscribeReturnCodes) : Suback :=
  ⟨pkid, return_codes⟩

/-! ### The world: broker plus client-session states and the send log -/

/-- The complete observable state the handlers act on: the broker, the
session state behind every client handle (keyed by client id, since
cloned handles share one session), the log of packets enqueued on
outbound sinks by `Client::send` (in enqueue order, tagged with the
receiver's id), and a count of protocol-error log events. -/
structure World where
  broker : Broker
  sessions : List (String × SessionState)
  sent : List (String × Packet)
  errorLogs : Nat
deriving DecidableEq, Repr

/-- The session state a client handle currently designates (absent handles
designate a fresh session). -/
def getSession (w : World) (id : String) : SessionState :=
  (alLookup w.sessions id).getD SessionState.new

/-- Write back a client handle's session state. -/
def setSession (w : World) (id : String) (s : SessionState) : World :=
  { w with sessions := alInsert w.sessions id s }

/-- Modelled from the spec: `Client::send` — enqueue the packet on the
client's outbound sink. -/
def sendPacket (w : World) (client : Client) (packet : Packet) : World :=
  { w with sent := w.sent ++ [(client.id, packet)] }

/-! ### Packet handlers (`src/broker.rs`) -/

/-- `Broker::handle_subscribe`: add the source client under every
requested topic, accumulating one `Success(qos)` return code per topic,
then send a single SUBACK. -/
def handle_subscribe (w : World) (subscribe : Subscribe) (client : Client) : World :=
  let acc := subscribe.topics.foldl
    (fun (acc : Broker × List SubscribeReturnCodes) topic =>
      (add_subscription_client acc.1 topic client,
       acc.2 ++ [SubscribeReturnCodes.Success topic.qos]))
    (w.broker, [])
  sendPacket { w with broker := acc.1 } client
    (Packet.Suback (suback_packet subscribe.pid acc.2))

/-- One iteration of the inner fan-out loop body: construct the outbound
publish for one subscribed client, store it in the client's session when
qos is AtLeastOnce (`store_publish`) or ExactlyOnce (`store_record`),
then send it. -/
def fanout_client (w : World) (topic : String) (qos : QoS) (payload : List Nat)
    (client : Client) : World :=
  let s0 := getSession w client.id
  let ps := publish_packet s0 topic qos payload false false
  let s1 :=
    match qos with
    | QoS.AtLeastOnce => client_store_publish ps.2 ps.1
    | QoS.ExactlyOnce => client_store_record ps.2 ps.1
    | QoS.AtMostOnce => ps.2
  sendPacket (setSession w client.id s1) client (Packet.Publish ps.1)

/-- One iteration of the outer fan-out loop: snapshot the subscribers of
`(topic, qos)` and run the inner loop over them. -/
def fanout_level (w : World) (topic : String) (qos : QoS) (payload : List Nat) : World :=
  let gs := get_subscribed_clients w.broker { topic_path := topic, qos := qos }
  gs.1.foldl (fun w c => fanout_client w topic qos payload c) { w with broker := gs.2 }

/-- `Broker::forward_to_subscribers`: iterate the three candidate QoS
levels in order and fan the publish out to each level's subscribers. -/
def forward_to_subscribers (w : World) (publish : Publish) : World :=
  [QoS.AtMostOnce, QoS.AtLeastOnce, QoS.ExactlyOnce].foldl
    (fun w qos => fanout_level w publish.topic_name qos publish.payload) w

/-- `Broker::handle_publish`. -/
def handle_publish (w : World) (publish : Publish) (client : Client) : World :=
  match publish.qos with
  | QoS.AtMostOnce => forward_to_subscribers w publish
  | QoS.AtLeastOnce =>
    match publish.pid with
    | some pkid =>
      forward_to_subscribers (sendPacket w client (Packet.Puback pkid)) publish
    | none => { w with errorLogs := w.errorLogs + 1 }
  | QoS.ExactlyOnce =>
    match publish.pid with
    | some pkid =>
      sendPacket
        { w with broker := { w.broker with state := store_record w.broker.state publish } }
        client (Packet.Pubrec pkid)
    | none => { w with errorLogs := w.errorLogs + 1 }

/-- `Broker::handle_puback`: `client.remove_publish(pkid)`. -/
def handle_puback (w : World) (pkid : Nat) (client : Client) : World :=
  setSession w client.id (client_remove_publish (getSession w client.id) pkid).2

/-- `Broker::handle_pubrec`: on a matching record, store the rel and send
PUBREL (the source unwraps `record.pid`; the unreachable `none` case is
modelled with a default of 0). -/
def handle_pubrec (w : World) (pkid : Nat) (client : Client) : World :=
  match client_remove_record (getSession w client.id) pkid with
  | (some record, s) =>
    let w := setSession w client.id (client_store_rel s (record.pid.getD 0))
    sendPacket w client (Packet.Pubrel pkid)
  | (none, _) => w

/-- `Broker::handle_pubcomp`: `client.remove_rel(pkid)`. -/
def handle_pubcomp (w : World) (pkid : Nat) (client : Client) : World :=
  setSession w client.id (client_remove_rel (getSession w client.id) pkid)

/-- `Broker::handle_pubrel`: send PUBCOMP first, then release the matching
record, if any, and fan it out (the source inlines the body of
`forward_to_subscribers` here verbatim; the shared loop helpers are
reused). -/
def handle_pubrel (w : World) (pkid : Nat) (client : Client) : World :=
  let w := sendPacket w client (Packet.Pubcomp pkid)
  match client_remove_record (getSession w client.id) pkid with
  | (some record, s) =>
    let w := setSession w client.id s
    [QoS.AtMostOnce, QoS.AtLeastOnce, QoS.ExactlyOnce].foldl
      (fun w qos => fanout_level w record.topic_name qos record.payload) w
  | (none, _) => w

/-- `Broker::handle_pingreq`. -/
def handle_pingreq (w : World) (client : Client) : World :=
  sendPacket w client Packet.Pingresp

/-! ## Supporting lemmas -/

theorem position_eq_none {α : Type} {p : α → Bool} {l : List α}
    (h : ∀ x ∈ l, p x = false) : position p l = none := by
  induction l with
  | nil => rfl
  | cons x t ih =>
    have hx := h x (List.mem_cons_self x t)
    simp [position, hx, ih (fun y hy => h y (List.mem_cons_of_mem x hy))]

theorem position_some_spec {α : Type} {p : α → Bool} {l : List α} {i : Nat}
    (h : position p l = some i) :
    (∃ x, l[i]? = some x ∧ p x = true)
    ∧ (∀ j, j < i → ∀ x, l[j]? = some x → p x = false) := by
  induction l generalizing i with
  | nil => simp [position] at h
  | cons x t ih =>
    by_cases hx : p x = true
    · simp [position, hx] at h
      subst h
      exact ⟨⟨x, by simp, hx⟩, fun j hj => by omega⟩
    · have hx' : p x = false := by
        cases hpx : p x
        · rfl
        · exact absurd hpx hx
      simp [position, hx'] at h
      obtain ⟨i', hi', rfl⟩ := h
      obtain ⟨⟨y, hy, hpy⟩, hfirst⟩ := ih hi'
      refine ⟨⟨y, by simpa using hy, hpy⟩, ?_⟩
      intro j hj z hz
      cases j with
      | zero =>
        simp at hz
        subst hz
        exact hx'
      | succ j' => exact hfirst j' (by omega) z (by simpa using hz)

theorem position_lt_length {α : Type} {p : α → Bool} {l : List α} {i : Nat}
    (h : position p l = some i) : i < l.length := by
  obtain ⟨⟨x, hx, _⟩, _⟩ := position_some_spec h
  have := List.getElem?_eq_some.mp hx
  exact this.1

theorem dequeRemove_fst {α : Type} (l : List α) (i : Nat) :
    (dequeRemove l i).1 = l[i]? := by
  induction l generalizing i with
  | nil => cases i <;> simp [dequeRemove]
  | cons x t ih => cases i <;> simp [dequeRemove, ih]

theorem dequeRemove_snd {α : Type} (l : List α) (i : Nat) :
    (dequeRemove l i).2 = l.eraseIdx i := by
  induction l generalizing i with
  | nil => cases i <;> simp [dequeRemove]
  | cons x t ih => cases i <;> simp [dequeRemove, ih]

theorem listInsertIdx_length {α : Type} (l : List α) (i : Nat) (x : α) :
    (listInsertIdx l i x).length = l.length + 1 := by
  induction l generalizing i with
  | nil => cases i <;> simp [listInsertIdx]
  | cons y t ih => cases i <;> simp [listInsertIdx, ih]

theorem mem_listInsertIdx_self {α : Type} (l : List α) (i : Nat) (x : α) :
    x ∈ listInsertIdx l i x := by
  induction l generalizing i with
  | nil => cases i <;> simp [listInsertIdx]
  | cons y t ih => cases i <;> simp [listInsertIdx, ih]

theorem mem_listInsertIdx_of_mem {α : Type} {l : List α} {y : α} (i : Nat) (x : α)
    (h : y ∈ l) : y ∈ listInsertIdx l i x := by
  induction l generalizing i with
  | nil => simp at h
  | cons z t ih =>
    cases i with
    | zero => simp [listInsertIdx, h]
    | succ n =>
      rcases List.mem_cons.mp h with rfl | hy
      · simp [listInsertIdx]
      · simp [listInsertIdx, ih n hy]

theorem listInsertIdx_getElem? {α : Type} {l : List α} {i : Nat} (x : α)
    (h : i ≤ l.length) : (listInsertIdx l i x)[i]? = some x := by
  induction l generalizing i with
  | nil =>
    have : i = 0 := by simpa using h
    subst this
    rfl
  | cons y t ih =>
    cases i with
    | zero => rfl
    | succ n =>
      have hn : n ≤ t.length := by simpa using h
      simpa [listInsertIdx] using ih hn

theorem alLookup_alModifyD_self {α β : Type} [DecidableEq α]
    (l : List (α × β)) (k : α) (d : β) (f : β → β) :
    alLookup (alModifyD l k d f) k = some (f ((alLookup l k).getD d)) := by
  induction l with
  | nil => simp [alModifyD, alLookup]
  | cons p t ih =>
    obtain ⟨a, b⟩ := p
    by_cases hak : a = k
    · subst hak
      simp [alModifyD, alLookup]
    · simp [alModifyD, alLookup, hak, ih]

theorem alLookup_alModifyD_ne {α β : Type} [DecidableEq α]
    (l : List (α × β)) {k k' : α} (d : β) (f : β → β) (h : k' ≠ k) :
    alLookup (alModifyD l k d f) k' = alLookup l k' := by
  induction l with
  | nil => simp [alModifyD, alLookup, Ne.symm h]
  | cons p t ih =>
    obtain ⟨a, b⟩ := p
    by_cases hak : a = k
    · subst hak
      simp [alModifyD, alLookup, Ne.symm h]
    · simp [alModifyD, alLookup, hak, ih]

theorem alLookup_alInsert_self {α β : Type} [DecidableEq α]
    (l : List (α × β)) (k : α) (v : β) : alLookup (alInsert l k v) k = some v := by
  induction l with
  | nil => simp [alInsert, alLookup]
  | cons p t ih =>
    obtain ⟨a, b⟩ := p
    by_cases hak : a = k
    · subst hak
      simp [alInsert, alLookup]
    · simp [alInsert, alLookup, hak, ih]

theorem alLookup_alInsert_ne {α β : Type} [DecidableEq α]
    (l : List (α × β)) {k k' : α} (v : β) (h : k' ≠ k) :
    alLookup (alInsert l k v) k' = alLookup l k' := by
  induction l with
  | nil => simp [alInsert, alLookup, Ne.symm h]
  | cons p t ih =>
    obtain ⟨a, b⟩ := p
    by_cases hak : a = k
    · subst hak
      simp [alInsert, alLookup, Ne.symm h]
    · simp [alInsert, alLookup, hak, ih]

theorem getSession_setSession_self (w : World) (id : String) (s : SessionState) :
    getSession (setSession w id s) id = s := by
  simp [getSession, setSession, alLookup_alInsert_self]

theorem getSession_setSession_ne (w : World) {id id' : String} (s : SessionState)
    (h : id' ≠ id) : getSession (setSession w id s) id' = getSession w id' := by
  simp [getSession, setSession, alLookup_alInsert_ne _ _ h]

theorem getSession_sendPacket (w : World) (c : Client) (p : Packet) (id : String) :
    getSession (sendPacket w c p) id = getSession w id := rfl

theorem publish_packet_fst (s : SessionState) (topic : String) (q : QoS)
    (payload : List Nat) (r d : Bool) :
    (publish_packet s topic q payload r d).1.qos = q
    ∧ (publish_packet s topic q payload r d).1.retain = r
    ∧ (publish_packet s topic q payload r d).1.dup = d
    ∧ (publish_packet s topic q payload r d).1.topic_name = topic
    ∧ (publish_packet s topic q payload r d).1.payload = payload := by
  cases q <;> simp [publish_packet]

theorem publish_packet_snd_queues (s : SessionState) (topic : String) (q : QoS)
    (payload : List Nat) (r d : Bool) :
    (publish_packet s topic q payload r d).2.incoming_pub = s.incoming_pub
    ∧ (publish_packet s topic q payload r d).2.incoming_rec = s.incoming_rec
    ∧ (publish_packet s topic q payload r d).2.incoming_rel = s.incoming_rel
    ∧ (publish_packet s topic q payload r d).2.incoming_comp = s.incoming_comp := by
  cases q <;> simp [publish_packet]

theorem fanout_client_broker (w : World) (topic : String) (q : QoS)
    (payload : List Nat) (c : Client) :
    (fanout_client w topic q payload c).broker = w.broker := by
  simp [fanout_client, sendPacket, setSession]

theorem fanout_client_errorLogs (w : World) (topic : String) (q : QoS)
    (payload : List Nat) (c : Client) :
    (fanout_client w topic q payload c).errorLogs = w.errorLogs := by
  simp [fanout_client, sendPacket, setSession]

theorem fanout_client_sent (w : World) (topic : String) (q : QoS)
    (payload : List Nat) (c : Client) :
    (fanout_client w topic q payload c).sent
      = w.sent ++ [(c.id, Packet.Publish
          (publish_packet (getSession w c.id) topic q payload false false).1)] := by
  simp [fanout_client, sendPacket, setSession]

theorem fanout_client_session_ne (w : World) (topic : String) (q : QoS)
    (payload : List Nat) (c : Client) {id : String} (h : id ≠ c.id) :
    getSession (fanout_client w topic q payload c) id = getSession w id := by
  rw [fanout_client.eq_def, getSession_sendPacket, getSession_setSession_ne _ _ h]

theorem fanout_client_session_self (w : World) (topic : String) (q : QoS)
    (payload : List Nat) (c : Client) :
    (getSession (fanout_client w topic q payload c) c.id).incoming_pub
      = (getSession w c.id).incoming_pub
        ++ (if q = QoS.AtLeastOnce
            then [(publish_packet (getSession w c.id) topic q payload false false).1]
            else [])
    ∧ (getSession (fanout_client w topic q payload c) c.id).incoming_rec
      = (getSession w c.id).incoming_rec
        ++ (if q = QoS.ExactlyOnce
            then [(publish_packet (getSession w c.id) topic q payload false false).1]
            else [])
    ∧ (getSession (fanout_client w topic q payload c) c.id).incoming_rel
      = (getSession w c.id).incoming_rel
    ∧ (getSession (fanout_client w topic q payload c) c.id).incoming_comp
      = (getSession w c.id).incoming_comp := by
  rw [fanout_client.eq_def]
  cases q <;>
    simp [getSession_sendPacket, getSession_setSession_self, client_store_publish,
      client_store_record, publish_packet]

theorem fanout_fold_spec (topic : String) (q : QoS) (payload : List Nat)
    (cs : List Client) (w : World) :
    ∃ pubs : List Publish,
      pubs.length = cs.length
      ∧ (cs.foldl (fun w c => fanout_client w topic q payload c) w).sent
          = w.sent ++ (cs.zip pubs).map (fun x => (x.1.id, Packet.Publish x.2))
      ∧ (∀ pub ∈ pubs, pub.qos = q ∧ pub.retain = false ∧ pub.dup = false
          ∧ pub.topic_name = topic ∧ pub.payload = payload)
      ∧ (∀ id, (getSession (cs.foldl (fun w c => fanout_client w topic q payload c) w)
            id).incoming_pub
          = (getSession w id).incoming_pub
            ++ (if q = QoS.AtLeastOnce
                then ((cs.zip pubs).filter (fun x => x.1.id == id)).map (fun x => x.2)
                else []))
      ∧ (∀ id, (getSession (cs.foldl (fun w c => fanout_client w topic q payload c) w)
            id).incoming_rec
          = (getSession w id).incoming_rec
            ++ (if q = QoS.ExactlyOnce
                then ((cs.zip pubs).filter (fun x => x.1.id == id)).map (fun x => x.2)
                else []))
      ∧ (∀ id, (getSession (cs.foldl (fun w c => fanout_client w topic q payload c) w)
            id).incoming_rel = (getSession w id).incoming_rel)
      ∧ (∀ id, (getSession (cs.foldl (fun w c => fanout_client w topic q payload c) w)
            id).incoming_comp = (getSession w id).incoming_comp)
      ∧ (cs.foldl (fun w c => fanout_client w topic q payload c) w).broker = w.broker
      ∧ (cs.foldl (fun w c => fanout_client w topic q payload c) w).errorLogs
          = w.errorLogs := by
  induction cs generalizing w with
  | nil => exact ⟨[], by simp, by simp, by simp, by simp, by simp, by simp, by simp,
      by simp, by simp⟩
  | cons c cs ih =>
    obtain ⟨pubs, hlen, hsent, hshape, hpub, hrec, hrel, hcomp, hbroker, herr⟩ :=
      ih (fanout_client w topic q payload c)
    refine ⟨(publish_packet (getSession w c.id) topic q payload false false).1 :: pubs,
      ?_, ?_, ?_, ?_, ?_, ?_, ?_, ?_, ?_⟩
    · simp [hlen]
    · rw [List.foldl_cons, hsent, fanout_client_sent]
      simp
    · intro pub hp
      rcases List.mem_cons.mp hp with rfl | hp
      · obtain ⟨h1, h2, h3, h4, h5⟩ := publish_packet_fst (getSession w c.id) topic q
          payload false false
        exact ⟨h1, h2, h3, h4, h5⟩
      · exact hshape pub hp
    · intro id
      rw [List.foldl_cons, hpub id]
      by_cases hid : id = c.id
      · subst hid
        rw [(fanout_client_session_self w topic q payload c).1]
        by_cases hq : q = QoS.AtLeastOnce <;> simp [hq, List.append_assoc]
      · rw [fanout_client_session_ne w topic q payload c hid]
        have hne : (c.id == id) = false := beq_eq_false_iff_ne.mpr (Ne.symm hid)
        by_cases hq : q = QoS.AtLeastOnce <;> simp [hq, hne, List.filter_cons]
    · intro id
      rw [List.foldl_cons, hrec id]
      by_cases hid : id = c.id
      · subst hid
        rw [(fanout_client_session_self w topic q payload c).2.1]
        by_cases hq : q = QoS.ExactlyOnce <;> simp [hq, List.append_assoc]
      · rw [fanout_client_session_ne w topic q payload c hid]
        have hne : (c.id == id) = false := beq_eq_false_iff_ne.mpr (Ne.symm hid)
        by_cases hq : q = QoS.ExactlyOnce <;> simp [hq, hne, List.filter_cons]
    · intro id
      rw [List.foldl_cons, hrel id]
      by_cases hid : id = c.id
      · subst hid
        exact (fanout_client_session_self w topic q payload c).2.2.1
      · exact congrArg SessionState.incoming_rel
          (fanout_client_session_ne w topic q payload c hid)
    · intro id
      rw [List.foldl_cons, hcomp id]
      by_cases hid : id = c.id
      · subst hid
        exact (fanout_client_session_self w topic q payload c).2.2.2
      · exact congrArg SessionState.incoming_comp
          (fanout_client_session_ne w topic q payload c hid)
    · rw [List.foldl_cons, hbroker, fanout_client_broker]
    · rw [List.foldl_cons, herr, fanout_client_errorLogs]

theorem fanout_level_eq_foldl (w : World) (topic : String) (q : QoS) (payload : List Nat) :
    fanout_level w topic q payload
      = ((get_subscribed_clients w.broker ⟨topic, q⟩).1).foldl
          (fun w c => fanout_client w topic q payload c) w := rfl

theorem forward_topic_payload_only (w : World) (p p' : Publish)
    (h1 : p'.topic_name = p.topic_name) (h2 : p'.payload = p.payload) :
    forward_to_subscribers w p' = forward_to_subscribers w p := by
  simp only [forward_to_subscribers, h1, h2]

theorem forward_spec_aux (w : World) (p : Publish) :
    ∃ pubs0 pubs1 pubs2 : List Publish,
      pubs0.length
          = ((get_subscribed_clients w.broker ⟨p.topic_name, QoS.AtMostOnce⟩).1).length
      ∧ pubs1.length
          = ((get_subscribed_clients w.broker ⟨p.topic_name, QoS.AtLeastOnce⟩).1).length
      ∧ pubs2.length
          = ((get_subscribed_clients w.broker ⟨p.topic_name, QoS.ExactlyOnce⟩).1).length
      ∧ (forward_to_subscribers w p).sent
          = w.sent
            ++ (((get_subscribed_clients w.broker ⟨p.topic_name, QoS.AtMostOnce⟩).1).zip
                pubs0).map (fun x => (x.1.id, Packet.Publish x.2))
            ++ (((get_subscribed_clients w.broker ⟨p.topic_name, QoS.AtLeastOnce⟩).1).zip
                pubs1).map (fun x => (x.1.id, Packet.Publish x.2))
            ++ (((get_subscribed_clients w.broker ⟨p.topic_name, QoS.ExactlyOnce⟩).1).zip
                pubs2).map (fun x => (x.1.id, Packet.Publish x.2))
      ∧ (∀ pub ∈ pubs0, pub.qos = QoS.AtMostOnce ∧ pub.retain = false ∧ pub.dup = false
          ∧ pub.topic_name = p.topic_name ∧ pub.payload = p.payload)
      ∧ (∀ pub ∈ pubs1, pub.qos = QoS.AtLeastOnce ∧ pub.retain = false ∧ pub.dup = false
          ∧ pub.topic_name = p.topic_name ∧ pub.payload = p.payload)
      ∧ (∀ pub ∈ pubs2, pub.qos = QoS.ExactlyOnce ∧ pub.retain = false ∧ pub.dup = false
          ∧ pub.topic_name = p.topic_name ∧ pub.payload = p.payload)
      ∧ (∀ id, (getSession (forward_to_subscribers w p) id).incoming_pub
          = (getSession w id).incoming_pub
            ++ ((((get_subscribed_clients w.broker
                  ⟨p.topic_name, QoS.AtLeastOnce⟩).1).zip pubs1).filter
                (fun x => x.1.id == id)).map (fun x => x.2))
      ∧ (∀ id, (getSession (forward_to_subscribers w p) id).incoming_rec
          = (getSession w id).incoming_rec
            ++ ((((get_subscribed_clients w.broker
                  ⟨p.topic_name, QoS.ExactlyOnce⟩).1).zip pubs2).filter
                (fun x => x.1.id == id)).map (fun x => x.2))
      ∧ (∀ id, (getSession (forward_to_subscribers w p) id).incoming_rel
          = (getSession w id).incoming_rel)
      ∧ (∀ id, (getSession (forward_to_subscribers w p) id).incoming_comp
          = (getSession w id).incoming_comp)
      ∧ (forward_to_subscribers w p).broker = w.broker
      ∧ (forward_to_subscribers w p).errorLogs = w.errorLogs := by
  obtain ⟨pubs0, h0len, h0sent, h0shape, h0pub, h0rec, h0rel, h0comp, h0broker, h0err⟩ :=
    fanout_fold_spec p.topic_name QoS.AtMostOnce p.payload
      ((get_subscribed_clients w.broker ⟨p.topic_name, QoS.AtMostOnce⟩).1) w
  obtain ⟨pubs1, h1len, h1sent, h1shape, h1pub, h1rec, h1rel, h1comp, h1broker, h1err⟩ :=
    fanout_fold_spec p.topic_name QoS.AtLeastOnce p.payload
      ((get_subscribed_clients w.broker ⟨p.topic_name, QoS.AtLeastOnce⟩).1)
      (((get_subscribed_clients w.broker ⟨p.topic_name, QoS.AtMostOnce⟩).1).foldl
        (fun w c => fanout_client w p.topic_name QoS.AtMostOnce p.payload c) w)
  obtain ⟨pubs2, h2len, h2sent, h2shape, h2pub, h2rec, h2rel, h2comp, h2broker, h2err⟩ :=
    fanout_fold_spec p.topic_name QoS.ExactlyOnce p.payload
      ((get_subscribed_clients w.broker ⟨p.topic_name, QoS.ExactlyOnce⟩).1)
      (((get_subscribed_clients w.broker ⟨p.topic_name, QoS.AtLeastOnce⟩).1).foldl
        (fun w c => fanout_client w p.topic_name QoS.AtLeastOnce p.payload c)
        (((get_subscribed_clients w.broker ⟨p.topic_name, QoS.AtMostOnce⟩).1).foldl
          (fun w c => fanout_client w p.topic_name QoS.AtMostOnce p.payload c) w))
  have eforward : forward_to_subscribers w p
      = ((get_subscribed_clients w.broker ⟨p.topic_name, QoS.ExactlyOnce⟩).1).foldl
          (fun w c => fanout_client w p.topic_name QoS.ExactlyOnce p.payload c)
          (((get_subscribed_clients w.broker ⟨p.topic_name, QoS.AtLeastOnce⟩).1).foldl
            (fun w c => fanout_client w p.topic_name QoS.AtLeastOnce p.payload c)
            (((get_subscribed_clients w.broker ⟨p.topic_name, QoS.AtMostOnce⟩).1).foldl
              (fun w c => fanout_client w p.topic_name QoS.AtMostOnce p.payload c) w)) := by
    show fanout_level (fanout_level (fanout_level w p.topic_name QoS.AtMostOnce p.payload)
        p.topic_name QoS.AtLeastOnce p.payload) p.topic_name QoS.ExactlyOnce p.payload = _
    rw [fanout_level_eq_foldl w]
    rw [fanout_level_eq_foldl (((get_subscribed_clients w.broker
      ⟨p.topic_name, QoS.AtMostOnce⟩).1).foldl
      (fun w c => fanout_client w p.topic_name QoS.AtMostOnce p.payload c) w)]
    rw [h0broker]
    rw [fanout_level_eq_foldl]
    rw [h1broker, h0broker]
  refine ⟨pubs0, pubs1, pubs2, h0len, h1len, h2len, ?_, h0shape, h1shape, h2shape,
    ?_, ?_, ?_, ?_, ?_, ?_⟩
  · rw [eforward, h2sent, h1sent, h0sent]
  · intro id
    rw [eforward, h2pub id, h1pub id, h0pub id]
    simp
  · intro id
    rw [eforward, h2rec id, h1rec id, h0rec id]
    simp
  · intro id
    rw [eforward, h2rel id, h1rel id, h0rel id]
  · intro id
    rw [eforward, h2comp id, h1comp id, h0comp id]
  · rw [eforward, h2broker, h1broker, h0broker]
  · rw [eforward, h2err, h1err, h0err]

theorem forward_sent_mono (w : World) (p : Publish) :
    ∃ l, (forward_to_subscribers w p).sent = w.sent ++ l := by
  obtain ⟨pubs0, pubs1, pubs2, hl0, hl1, hl2, hsent, hrest⟩ := forward_spec_aux w p
  refine ⟨(((get_subscribed_clients w.broker ⟨p.topic_name, QoS.AtMostOnce⟩).1).zip
        pubs0).map (fun x => (x.1.id, Packet.Publish x.2))
      ++ ((((get_subscribed_clients w.broker ⟨p.topic_name, QoS.AtLeastOnce⟩).1).zip
        pubs1).map (fun x => (x.1.id, Packet.Publish x.2))
      ++ (((get_subscribed_clients w.broker ⟨p.topic_name, QoS.ExactlyOnce⟩).1).zip
        pubs2).map (fun x => (x.1.id, Packet.Publish x.2))), ?_⟩
  rw [hsent]
  simp [List.append_assoc]

theorem fanout_level_sent_mono (w : World) (topic : String) (q : QoS) (payload : List Nat) :
    ∃ l, (fanout_level w topic q payload).sent = w.sent ++ l := by
  obtain ⟨pubs, _, hsent, _⟩ := fanout_fold_spec topic q payload
    ((get_subscribed_clients w.broker ⟨topic, q⟩).1) w
  exact ⟨_, by rw [fanout_level_eq_foldl]; exact hsent⟩

theorem fan3_sent_mono (w : World) (topic : String) (payload : List Nat) :
    ∃ l, ([QoS.AtMostOnce, QoS.AtLeastOnce, QoS.ExactlyOnce].foldl
        (fun w qos => fanout_level w topic qos payload) w).sent = w.sent ++ l := by
  obtain ⟨l0, h0⟩ := fanout_level_sent_mono w topic QoS.AtMostOnce payload
  obtain ⟨l1, h1⟩ := fanout_level_sent_mono (fanout_level w topic QoS.AtMostOnce payload)
    topic QoS.AtLeastOnce payload
  obtain ⟨l2, h2⟩ := fanout_level_sent_mono
    (fanout_level (fanout_level w topic QoS.AtMostOnce payload) topic QoS.AtLeastOnce payload)
    topic QoS.ExactlyOnce payload
  refine ⟨l0 ++ (l1 ++ l2), ?_⟩
  show (fanout_level (fanout_level (fanout_level w topic QoS.AtMostOnce payload)
      topic QoS.AtLeastOnce payload) topic QoS.ExactlyOnce payload).sent = _
  rw [h2, h1, h0]
  simp [List.append_assoc]

theorem subscribe_fold (topics : List SubscribeTopic) (c : Client) (b : Broker)
    (codes : List SubscribeReturnCodes) :
    topics.foldl (fun (acc : Broker × List SubscribeReturnCodes) topic =>
        (add_subscription_client acc.1 topic c,
         acc.2 ++ [SubscribeReturnCodes.Success topic.qos])) (b, codes)
      = (topics.foldl (fun b t => add_subscription_client b t c) b,
         codes ++ topics.map (fun t => SubscribeReturnCodes.Success t.qos)) := by
  induction topics generalizing b codes with
  | nil => simp
  | cons t ts ih => simp [ih]

theorem add_subscription_client_mem_self (b : Broker) (k : SubscribeTopic) (c : Client) :
    ∃ l, alLookup (add_subscription_client b k c).subscriptions k = some l
      ∧ ∃ e ∈ l, e.id = c.id := by
  rw [add_subscription_client]
  refine ⟨_, alLookup_alModifyD_self b.subscriptions k [] _, ?_⟩
  cases hpos : position_id ((alLookup b.subscriptions k).getD []) c.id with
  | some i => exact ⟨c, mem_listInsertIdx_self _ i c, rfl⟩
  | none => exact ⟨c, by simp, rfl⟩

theorem add_subscription_client_mem_mono (b : Broker) (k' : SubscribeTopic) (c' : Client)
    {k : SubscribeTopic} {id : String}
    (h : ∃ l, alLookup b.subscriptions k = some l ∧ ∃ e ∈ l, e.id = id) :
    ∃ l, alLookup (add_subscription_client b k' c').subscriptions k = some l
      ∧ ∃ e ∈ l, e.id = id := by
  obtain ⟨l, hl, e, he, hid⟩ := h
  by_cases hk : k = k'
  · subst hk
    rw [add_subscription_client]
    refine ⟨_, alLookup_alModifyD_self b.subscriptions k [] _, ?_⟩
    rw [hl]
    cases hpos : position_id ((some l).getD []) c'.id with
    | some i => exact ⟨e, mem_listInsertIdx_of_mem i c' he, hid⟩
    | none => exact ⟨e, by simp [he], hid⟩
  · rw [add_subscription_client]
    exact ⟨l, by rw [alLookup_alModifyD_ne b.subscriptions [] _ hk]; exact hl, e, he, hid⟩

theorem foldl_add_subscription_mem_mono (topics : List SubscribeTopic) (c' : Client)
    {b : Broker} {k : SubscribeTopic} {id : String}
    (h : ∃ l, alLookup b.subscriptions k = some l ∧ ∃ e ∈ l, e.id = id) :
    ∃ l, alLookup ((topics.foldl (fun b t => add_subscription_client b t c') b)).subscriptions k
        = some l ∧ ∃ e ∈ l, e.id = id := by
  induction topics generalizing b with
  | nil => exact h
  | cons t ts ih => exact ih (add_subscription_client_mem_mono b t c' h)

theorem foldl_add_subscription_mem (topics : List SubscribeTopic) (c : Client) (b : Broker) :
    ∀ t ∈ topics,
      ∃ l, alLookup ((topics.foldl (fun b t => add_subscription_client b t c) b)).subscriptions t
          = some l ∧ ∃ e ∈ l, e.id = c.id := by
  induction topics generalizing b with
  | nil => simp
  | cons t ts ih =>
    intro t' ht'
    rcases List.mem_cons.mp ht' with rfl | ht'
    · exact foldl_add_subscription_mem_mono ts c
        (add_subscription_client_mem_self b t' c)
    · exact ih (add_subscription_client b t c) t' ht'

/-! ## Claims -/

/-- C1 (code bug): `add_subscription_client`'s comment promises to replace
an existing entry with the same id, but the implementation inserts in
front of it, so a value list can hold two entries with one id;
`remove_client` then removes only the first match per list.  Concretely:
adding client "a", subscribing it twice to the same key, and then
removing it leaves an entry with id "a" in the subscription index,
violating the claimed invariant. -/
theorem remove_client_leaves_stale_entry :
    ∃ e ∈ ((alLookup (remove_client (add_subscription_client (add_subscription_client
        (add_client Broker.new ⟨"a"⟩) ⟨"hello/mqtt", QoS.AtMostOnce⟩ ⟨"a"⟩)
        ⟨"hello/mqtt", QoS.AtMostOnce⟩ ⟨"a"⟩) "a").subscriptions
        ⟨"hello/mqtt", QoS.AtMostOnce⟩).getD []), e.id = "a" := by
  decide

/-- C2: `add_subscription_client` on a key whose value list already holds
an entry with the client's id at position `i` inserts the new handle at
`i` without removing the old one (the list grows by one, the new handle
sits at `i`, and every old entry is still present); with no matching id
the client is appended at the tail; with no entry for the key a singleton
list is created. -/
theorem add_subscription_client_cases (b : Broker) (k : SubscribeTopic) (c : Client) :
    (alLookup b.subscriptions k = none →
      alLookup (add_subscription_client b k c).subscriptions k = some [c])
    ∧ (∀ l, alLookup b.subscriptions k = some l → position_id l c.id = none →
      alLookup (add_subscription_client b k c).subscriptions k = some (l ++ [c]))
    ∧ (∀ l i, alLookup b.subscriptions k = some l → position_id l c.id = some i →
      alLookup (add_subscription_client b k c).subscriptions k = some (listInsertIdx l i c)
      ∧ (∃ x, l[i]? = some x ∧ x.id = c.id)
      ∧ (listInsertIdx l i c).length = l.length + 1
      ∧ (listInsertIdx l i c)[i]? = some c
      ∧ (∀ x ∈ l, x ∈ listInsertIdx l i c)) := by
  refine ⟨?_, ?_, ?_⟩
  · intro h
    rw [add_subscription_client, alLookup_alModifyD_self, h]
    rfl
  · intro l hl hpos
    rw [add_subscription_client, alLookup_alModifyD_self, hl]
    simp [hpos]
  · intro l i hl hpos
    have hlt : i < l.length := position_lt_length hpos
    obtain ⟨⟨x, hx, hpx⟩, _⟩ := position_some_spec hpos
    refine ⟨?_, ⟨x, hx, of_decide_eq_true hpx⟩, listInsertIdx_length l i c,
      listInsertIdx_getElem? c (Nat.le_of_lt hlt), fun y hy => mem_listInsertIdx_of_mem i c hy⟩
    rw [add_subscription_client, alLookup_alModifyD_self, hl]
    simp [hpos]

/-- C2 witness: the three branches at concrete inputs — a fresh key gets
the singleton list, a list without the id gets the client appended, a
list with the id at position 0 grows to hold both handles. -/
theorem add_subscription_client_cases_witness :
    alLookup (add_subscription_client Broker.new ⟨"t", QoS.AtMostOnce⟩
        ⟨"a"⟩).subscriptions ⟨"t", QoS.AtMostOnce⟩ = some [⟨"a"⟩]
    ∧ alLookup (add_subscription_client ⟨[], [(⟨"t", QoS.AtMostOnce⟩, [⟨"d"⟩])], BrokerState.new⟩
        ⟨"t", QoS.AtMostOnce⟩ ⟨"a"⟩).subscriptions ⟨"t", QoS.AtMostOnce⟩
      = some [⟨"d"⟩, ⟨"a"⟩]
    ∧ alLookup (add_subscription_client ⟨[], [(⟨"t", QoS.AtMostOnce⟩, [⟨"a"⟩])], BrokerState.new⟩
        ⟨"t", QoS.AtMostOnce⟩ ⟨"a"⟩).subscriptions ⟨"t", QoS.AtMostOnce⟩
      = some [⟨"a"⟩, ⟨"a"⟩] := by
  refine ⟨(add_subscription_client_cases Broker.new ⟨"t", QoS.AtMostOnce⟩ ⟨"a"⟩).1 (by decide),
    (add_subscription_client_cases _ ⟨"t", QoS.AtMostOnce⟩ ⟨"a"⟩).2.1 [⟨"d"⟩]
      (by decide) (by decide),
    ((add_subscription_client_cases _ ⟨"t", QoS.AtMostOnce⟩ ⟨"a"⟩).2.2 [⟨"a"⟩] 0
      (by decide) (by decide)).1⟩

/-- C3: `remove_record` searches `incoming_pub` for the first publish
whose pid is `p`; at a found position `i` it removes and returns the
element at position `i` of `incoming_rec` — `incoming_pub` and the other
queues are untouched — and with no match in `incoming_pub` it returns
none and changes nothing. -/
theorem remove_record_scans_pub_removes_rec (s : BrokerState) (p : Nat) :
    ((∀ x ∈ s.incoming_pub, x.pid ≠ some p) → remove_record s p = (none, s))
    ∧ (∀ i, position_pid s.incoming_pub p = some i →
        (∃ x, s.incoming_pub[i]? = some x ∧ x.pid = some p)
        ∧ (∀ j, j < i → ∀ x, s.incoming_pub[j]? = some x → x.pid ≠ some p)
        ∧ (remove_record s p).1 = s.incoming_rec[i]?
        ∧ (remove_record s p).2.incoming_rec = s.incoming_rec.eraseIdx i
        ∧ (remove_record s p).2.incoming_pub = s.incoming_pub
        ∧ (remove_record s p).2.incoming_rel = s.incoming_rel
        ∧ (remove_record s p).2.incoming_comp = s.incoming_comp) := by
  constructor
  · intro h
    have hpos : position_pid s.incoming_pub p = none :=
      position_eq_none (fun x hx => decide_eq_false (h x hx))
    simp [remove_record, hpos]
  · intro i hi
    obtain ⟨⟨x, hx, hpx⟩, hfirst⟩ := position_some_spec hi
    exact ⟨⟨x, hx, of_decide_eq_true hpx⟩,
      fun j hj y hy => of_decide_eq_false (hfirst j hj y hy),
      by simp [remove_record, hi, dequeRemove_fst],
      by simp [remove_record, hi, dequeRemove_snd],
      by simp [remove_record, hi],
      by simp [remove_record, hi],
      by simp [remove_record, hi]⟩

/-- C3 witness: with pid 7 at position 0 of `incoming_pub` the call
removes and returns the (different) publish at position 0 of
`incoming_rec`; with an unknown pid it returns none and leaves the state
unchanged. -/
theorem remove_record_scans_pub_removes_rec_witness :
    (remove_record ⟨[⟨false, QoS.AtLeastOnce, false, "x", some 7, []⟩],
        [⟨false, QoS.ExactlyOnce, false, "y", some 9, []⟩], [], []⟩ 7).1
      = some ⟨false, QoS.ExactlyOnce, false, "y", some 9, []⟩
    ∧ remove_record ⟨[⟨false, QoS.AtLeastOnce, false, "x", some 7, []⟩],
        [⟨false, QoS.ExactlyOnce, false, "y", some 9, []⟩], [], []⟩ 3
      = (none, ⟨[⟨false, QoS.AtLeastOnce, false, "x", some 7, []⟩],
        [⟨false, QoS.ExactlyOnce, false, "y", some 9, []⟩], [], []⟩) := by
  constructor
  · exact ((remove_record_scans_pub_removes_rec
      ⟨[⟨false, QoS.AtLeastOnce, false, "x", some 7, []⟩],
        [⟨false, QoS.ExactlyOnce, false, "y", some 9, []⟩], [], []⟩ 7).2 0
      (by decide)).2.2.1
  · exact (remove_record_scans_pub_removes_rec
      ⟨[⟨false, QoS.AtLeastOnce, false, "x", some 7, []⟩],
        [⟨false, QoS.ExactlyOnce, false, "y", some 9, []⟩], [], []⟩ 3).1 (by decide)

/-- C9: each remove operation applied when its scanned queue holds no
element matching the pid leaves the whole state — all four queues —
unchanged, and on the publish queues it returns none
(`remove_publish` and `remove_record` both scan `incoming_pub`;
`remove_rel` and `remove_comp` scan their own queues). -/
theorem remove_ops_noop_on_no_match (s : BrokerState) (p : Nat) :
    ((∀ x ∈ s.incoming_pub, x.pid ≠ some p) →
      remove_publish s p = (none, s) ∧ remove_record s p = (none, s))
    ∧ ((∀ x ∈ s.incoming_rel, x ≠ p) → remove_rel s p = s)
    ∧ ((∀ x ∈ s.incoming_comp, x ≠ p) → remove_comp s p = s) := by
  refine ⟨fun h => ?_, fun h => ?_, fun h => ?_⟩
  · have hpos : position_pid s.incoming_pub p = none :=
      position_eq_none (fun x hx => decide_eq_false (h x hx))
    exact ⟨by simp [remove_publish, hpos], by simp [remove_record, hpos]⟩
  · have hpos : position_pkid s.incoming_rel p = none :=
      position_eq_none (fun x hx => decide_eq_false (h x hx))
    simp [remove_rel, hpos]
  · have hpos : position_pkid s.incoming_comp p = none :=
      position_eq_none (fun x hx => decide_eq_false (h x hx))
    simp [remove_comp, hpos]

/-- C9 witness: on a state whose queues hold only non-matching entries,
all four removes with pid 9 are no-ops and the publish-queue removes
return none. -/
theorem remove_ops_noop_on_no_match_witness :
    (remove_publish ⟨[⟨false, QoS.AtLeastOnce, false, "x", some 7, []⟩], [], [4], [5]⟩ 9
        = (none, ⟨[⟨false, QoS.AtLeastOnce, false, "x", some 7, []⟩], [], [4], [5]⟩)
      ∧ remove_record ⟨[⟨false, QoS.AtLeastOnce, false, "x", some 7, []⟩], [], [4], [5]⟩ 9
        = (none, ⟨[⟨false, QoS.AtLeastOnce, false, "x", some 7, []⟩], [], [4], [5]⟩))
    ∧ remove_rel ⟨[⟨false, QoS.AtLeastOnce, false, "x", some 7, []⟩], [], [4], [5]⟩ 9
        = ⟨[⟨false, QoS.AtLeastOnce, false, "x", some 7, []⟩], [], [4], [5]⟩
    ∧ remove_comp ⟨[⟨false, QoS.AtLeastOnce, false, "x", some 7, []⟩], [], [4], [5]⟩ 9
        = ⟨[⟨false, QoS.AtLeastOnce, false, "x", some 7, []⟩], [], [4], [5]⟩ := by
  refine ⟨(remove_ops_noop_on_no_match _ 9).1 (by decide),
    (remove_ops_noop_on_no_match _ 9).2.1 (by decide),
    (remove_ops_noop_on_no_match _ 9).2.2 (by decide)⟩

/-- C10: `get_subscribed_clients` never mutates the broker — the returned
broker component is exactly the input broker, so the clients table, the
subscription index and the broker state are identical before and after —
and it returns the key's value list, or the empty list when the key has
no entry (without creating one). -/
theorem get_subscribed_clients_pure (b : Broker) (k : SubscribeTopic) :
    (get_subscribed_clients b k).2 = b
    ∧ (∀ v, alLookup b.subscriptions k = some v → (get_subscribed_clients b k).1 = v)
    ∧ (alLookup b.subscriptions k = none → (get_subscribed_clients b k).1 = []) := by
  refine ⟨rfl, ?_, ?_⟩
  · intro v hv
    simp [get_subscribed_clients, hv]
  · intro hv
    simp [get_subscribed_clients, hv]

/-- C10 witness: a concrete broker — the present key returns its list,
the absent key returns the empty list, and the broker is returned
unchanged in both cases. -/
theorem get_subscribed_clients_pure_witness :
    (get_subscribed_clients ⟨[], [(⟨"t", QoS.AtMostOnce⟩, [⟨"a"⟩])], BrokerState.new⟩
        ⟨"t", QoS.AtMostOnce⟩).1 = [⟨"a"⟩]
    ∧ (get_subscribed_clients ⟨[], [(⟨"t", QoS.AtMostOnce⟩, [⟨"a"⟩])], BrokerState.new⟩
        ⟨"t", QoS.AtLeastOnce⟩).1 = []
    ∧ (get_subscribed_clients ⟨[], [(⟨"t", QoS.AtMostOnce⟩, [⟨"a"⟩])], BrokerState.new⟩
        ⟨"t", QoS.AtMostOnce⟩).2
      = ⟨[], [(⟨"t", QoS.AtMostOnce⟩, [⟨"a"⟩])], BrokerState.new⟩ := by
  refine ⟨(get_subscribed_clients_pure _ ⟨"t", QoS.AtMostOnce⟩).2.1 [⟨"a"⟩] (by decide),
    (get_subscribed_clients_pure _ ⟨"t", QoS.AtLeastOnce⟩).2.2 (by decide),
    (get_subscribed_clients_pure _ ⟨"t", QoS.AtMostOnce⟩).1⟩

/-- C4 counterexample: an inbound QoS-2 PUBLISH with pid 5 from client
"c" is NOT stored in the source's `incoming_rec` — the source session's
record queue stays empty — because the code calls the broker's own
`store_record`, whose queue receives the publish instead. -/
theorem handle_publish_qos2_not_stored_in_source :
    (getSession (handle_publish ⟨Broker.new, [], [], 0⟩
        ⟨false, QoS.ExactlyOnce, false, "t", some 5, []⟩ ⟨"c"⟩) "c").incoming_rec = []
    ∧ (handle_publish ⟨Broker.new, [], [], 0⟩
        ⟨false, QoS.ExactlyOnce, false, "t", some 5, []⟩ ⟨"c"⟩).broker.state.incoming_rec
      = [⟨false, QoS.ExactlyOnce, false, "t", some 5, []⟩] := by
  decide

/-- C4 amended: for an inbound PUBLISH with qos ExactlyOnce — if the pid
is absent the packet is dropped with an error log and nothing else
changes; otherwise the publish is appended to the BROKER'S OWN
`incoming_rec` queue (the broker's `store_record`, not the source
session's queue), a PUBREC(pid) is sent to the source, and no fan-out
and no session-state change occurs. -/
theorem handle_publish_qos2_spec (w : World) (p : Publish) (c : Client)
    (hq : p.qos = QoS.ExactlyOnce) :
    (p.pid = none → handle_publish w p c = { w with errorLogs := w.errorLogs + 1 })
    ∧ (∀ k, p.pid = some k →
        (handle_publish w p c).broker.state.incoming_rec
            = w.broker.state.incoming_rec ++ [p]
        ∧ (handle_publish w p c).broker.state.incoming_pub = w.broker.state.incoming_pub
        ∧ (handle_publish w p c).broker.state.incoming_rel = w.broker.state.incoming_rel
        ∧ (handle_publish w p c).broker.state.incoming_comp = w.broker.state.incoming_comp
        ∧ (handle_publish w p c).broker.clients = w.broker.clients
        ∧ (handle_publish w p c).broker.subscriptions = w.broker.subscriptions
        ∧ (handle_publish w p c).sent = w.sent ++ [(c.id, Packet.Pubrec k)]
        ∧ (handle_publish w p c).sessions = w.sessions
        ∧ (handle_publish w p c).errorLogs = w.errorLogs) := by
  constructor
  · intro hp
    simp [handle_publish, hq, hp]
  · intro k hp
    simp [handle_publish, hq, hp, sendPacket, store_record]

/-- C4 amended witness: both branches at concrete inputs — a pid-less
QoS-2 publish only bumps the error count; one with pid 5 lands in the
broker's record queue and triggers a PUBREC to its source. -/
theorem handle_publish_qos2_spec_witness :
    handle_publish ⟨Broker.new, [], [], 0⟩
        ⟨false, QoS.ExactlyOnce, false, "t", none, []⟩ ⟨"c"⟩
      = ⟨Broker.new, [], [], 1⟩
    ∧ (handle_publish ⟨Broker.new, [], [], 0⟩
        ⟨false, QoS.ExactlyOnce, false, "t", some 5, []⟩ ⟨"c"⟩).sent
      = [("c", Packet.Pubrec 5)] := by
  constructor
  · exact (handle_publish_qos2_spec ⟨Broker.new, [], [], 0⟩
      ⟨false, QoS.ExactlyOnce, false, "t", none, []⟩ ⟨"c"⟩ rfl).1 rfl
  · exact ((handle_publish_qos2_spec ⟨Broker.new, [], [], 0⟩
      ⟨false, QoS.ExactlyOnce, false, "t", some 5, []⟩ ⟨"c"⟩ rfl).2 5
      rfl).2.2.2.2.2.2.1

/-- C8: `handle_subscribe` adds the source client to the subscription
index under every `(topic_path, qos)` pair of the SUBSCRIBE (so each
requested key afterwards holds an entry with the source's id), each pair
contributes one `Success(qos)` return code in topic order, a single
SUBACK carrying the SUBSCRIBE's pid and the accumulated codes is sent to
the source, and no `Failure` code is ever generated. -/
theorem handle_subscribe_spec (w : World) (sub : Subscribe) (c : Client) :
    (handle_subscribe w sub c).sent
      = w.sent ++ [(c.id, Packet.Suback
          ⟨sub.pid, sub.topics.map (fun t => SubscribeReturnCodes.Success t.qos)⟩)]
    ∧ (handle_subscribe w sub c).broker
      = sub.topics.foldl (fun b t => add_subscription_client b t c) w.broker
    ∧ (∀ t ∈ sub.topics, ∃ l,
        alLookup (handle_subscribe w sub c).broker.subscriptions t = some l
        ∧ ∃ e ∈ l, e.id = c.id)
    ∧ SubscribeReturnCodes.Failure
        ∉ sub.topics.map (fun t => SubscribeReturnCodes.Success t.qos)
    ∧ (handle_subscribe w sub c).sessions = w.sessions := by
  have hfold := subscribe_fold sub.topics c w.broker []
  refine ⟨?_, ?_, ?_, ?_, ?_⟩
  · simp [handle_subscribe, hfold, sendPacket, suback_packet]
  · simp [handle_subscribe, hfold, sendPacket]
  · intro t ht
    have hb : (handle_subscribe w sub c).broker
        = sub.topics.foldl (fun b t => add_subscription_client b t c) w.broker := by
      simp [handle_subscribe, hfold, sendPacket]
    rw [hb]
    exact foldl_add_subscription_mem sub.topics c w.broker t ht
  · simp
  · simp [handle_subscribe, sendPacket]

/-- C8 witness: subscribing client "a" to a single topic in a fresh world
sends exactly one SUBACK with pid 3 and one Success code, and the topic's
value list afterwards holds an entry with id "a". -/
theorem handle_subscribe_spec_witness :
    (handle_subscribe ⟨Broker.new, [], [], 0⟩ ⟨3, [⟨"t", QoS.AtLeastOnce⟩]⟩ ⟨"a"⟩).sent
      = [("a", Packet.Suback ⟨3, [SubscribeReturnCodes.Success QoS.AtLeastOnce]⟩)]
    ∧ ∃ l, alLookup (handle_subscribe ⟨Broker.new, [], [], 0⟩
          ⟨3, [⟨"t", QoS.AtLeastOnce⟩]⟩ ⟨"a"⟩).broker.subscriptions
          ⟨"t", QoS.AtLeastOnce⟩ = some l
        ∧ ∃ e ∈ l, e.id = "a" := by
  constructor
  · exact (handle_subscribe_spec ⟨Broker.new, [], [], 0⟩
      ⟨3, [⟨"t", QoS.AtLeastOnce⟩]⟩ ⟨"a"⟩).1
  · exact (handle_subscribe_spec ⟨Broker.new, [], [], 0⟩
      ⟨3, [⟨"t", QoS.AtLeastOnce⟩]⟩ ⟨"a"⟩).2.2.1 ⟨"t", QoS.AtLeastOnce⟩ (by decide)

/-- C5: the fan-out iterates the candidate QoS levels AtMostOnce,
AtLeastOnce, ExactlyOnce in that order (the send log grows by the three
levels' sends in exactly that order); every constructed outbound publish
carries the level's qos with retain=false and dup=false and the inbound
topic and payload; the AtLeastOnce publishes are stored in the receiving
session's `incoming_pub` (store_publish), the ExactlyOnce publishes in
its `incoming_rec` (store_record), AtMostOnce publishes are stored
nowhere (the rel/comp queues and the broker never change); and the
result depends only on the publish's topic and payload, so the delivered
QoS equals the subscription QoS regardless of the publisher's QoS. -/
theorem forward_to_subscribers_spec (w : World) (p : Publish) :
    ∃ pubs0 pubs1 pubs2 : List Publish,
      pubs0.length
          = ((get_subscribed_clients w.broker ⟨p.topic_name, QoS.AtMostOnce⟩).1).length
      ∧ pubs1.length
          = ((get_subscribed_clients w.broker ⟨p.topic_name, QoS.AtLeastOnce⟩).1).length
      ∧ pubs2.length
          = ((get_subscribed_clients w.broker ⟨p.topic_name, QoS.ExactlyOnce⟩).1).length
      ∧ (forward_to_subscribers w p).sent
          = w.sent
            ++ (((get_subscribed_clients w.broker ⟨p.topic_name, QoS.AtMostOnce⟩).1).zip
                pubs0).map (fun x => (x.1.id, Packet.Publish x.2))
            ++ (((get_subscribed_clients w.broker ⟨p.topic_name, QoS.AtLeastOnce⟩).1).zip
                pubs1).map (fun x => (x.1.id, Packet.Publish x.2))
            ++ (((get_subscribed_clients w.broker ⟨p.topic_name, QoS.ExactlyOnce⟩).1).zip
                pubs2).map (fun x => (x.1.id, Packet.Publish x.2))
      ∧ (∀ pub ∈ pubs0, pub.qos = QoS.AtMostOnce ∧ pub.retain = false ∧ pub.dup = false
          ∧ pub.topic_name = p.topic_name ∧ pub.payload = p.payload)
      ∧ (∀ pub ∈ pubs1, pub.qos = QoS.AtLeastOnce ∧ pub.retain = false ∧ pub.dup = false
          ∧ pub.topic_name = p.topic_name ∧ pub.payload = p.payload)
      ∧ (∀ pub ∈ pubs2, pub.qos = QoS.ExactlyOnce ∧ pub.retain = false ∧ pub.dup = false
          ∧ pub.topic_name = p.topic_name ∧ pub.payload = p.payload)
      ∧ (∀ id, (getSession (forward_to_subscribers w p) id).incoming_pub
          = (getSession w id).incoming_pub
            ++ ((((get_subscribed_clients w.broker
                  ⟨p.topic_name, QoS.AtLeastOnce⟩).1).zip pubs1).filter
                (fun x => x.1.id == id)).map (fun x => x.2))
      ∧ (∀ id, (getSession (forward_to_subscribers w p) id).incoming_rec
          = (getSession w id).incoming_rec
            ++ ((((get_subscribed_clients w.broker
                  ⟨p.topic_name, QoS.ExactlyOnce⟩).1).zip pubs2).filter
                (fun x => x.1.id == id)).map (fun x => x.2))
      ∧ (∀ id, (getSession (forward_to_subscribers w p) id).incoming_rel
          = (getSession w id).incoming_rel)
      ∧ (∀ id, (getSession (forward_to_subscribers w p) id).incoming_comp
          = (getSession w id).incoming_comp)
      ∧ (forward_to_subscribers w p).broker = w.broker
      ∧ (forward_to_subscribers w p).errorLogs = w.errorLogs
      ∧ (∀ p' : Publish, p'.topic_name = p.topic_name → p'.payload = p.payload →
          forward_to_subscribers w p' = forward_to_subscribers w p) := by
  obtain ⟨pubs0, pubs1, pubs2, hl0, hl1, hl2, hsent, hs0, hs1, hs2, hpub, hrec, hrel,
    hcomp, hbroker, herr⟩ := forward_spec_aux w p
  exact ⟨pubs0, pubs1, pubs2, hl0, hl1, hl2, hsent, hs0, hs1, hs2, hpub, hrec, hrel,
    hcomp, hbroker, herr, fun p' h1 h2 => forward_topic_payload_only w p p' h1 h2⟩

/-- C5 witness: in a world with one AtLeastOnce subscriber, the fan-out
of a QoS-0 publish leaves the broker untouched and the subscriber's
`incoming_rel` empty, and a QoS-2 publish with the same topic and
payload produces the identical result — the publisher's QoS is
irrelevant. -/
theorem forward_to_subscribers_spec_witness :
    (forward_to_subscribers
        ⟨⟨[], [(⟨"t", QoS.AtLeastOnce⟩, [⟨"b"⟩])], BrokerState.new⟩, [], [], 0⟩
        ⟨false, QoS.AtMostOnce, false, "t", none, [7]⟩).broker
      = ⟨[], [(⟨"t", QoS.AtLeastOnce⟩, [⟨"b"⟩])], BrokerState.new⟩
    ∧ (getSession (forward_to_subscribers
        ⟨⟨[], [(⟨"t", QoS.AtLeastOnce⟩, [⟨"b"⟩])], BrokerState.new⟩, [], [], 0⟩
        ⟨false, QoS.AtMostOnce, false, "t", none, [7]⟩) "b").incoming_rel = []
    ∧ forward_to_subscribers
        ⟨⟨[], [(⟨"t", QoS.AtLeastOnce⟩, [⟨"b"⟩])], BrokerState.new⟩, [], [], 0⟩
        ⟨true, QoS.ExactlyOnce, true, "t", some 9, [7]⟩
      = forward_to_subscribers
        ⟨⟨[], [(⟨"t", QoS.AtLeastOnce⟩, [⟨"b"⟩])], BrokerState.new⟩, [], [], 0⟩
        ⟨false, QoS.AtMostOnce, false, "t", none, [7]⟩ := by
  obtain ⟨p0, p1, p2, hl0, hl1, hl2, hsent, hs0, hs1, hs2, hpub, hrec, hrel, hcomp,
    hbroker, herr, hind⟩ := forward_to_subscribers_spec
      ⟨⟨[], [(⟨"t", QoS.AtLeastOnce⟩, [⟨"b"⟩])], BrokerState.new⟩, [], [], 0⟩
      ⟨false, QoS.AtMostOnce, false, "t", none, [7]⟩
  exact ⟨hbroker, hrel "b", hind ⟨true, QoS.ExactlyOnce, true, "t", some 9, [7]⟩ rfl rfl⟩

/-- C7: an inbound AtLeastOnce PUBLISH without a pid is dropped with an
error log — nothing is sent and no state besides the error count
changes; with pid k a PUBACK(k) is sent to the source before any fan-out
send, and the inbound publish is stored in no queue: the broker (its
four queues included) is unchanged, and session queues grow only by the
outbound publishes the fan-out constructs (AtLeastOnce ones in
`incoming_pub`, ExactlyOnce ones in `incoming_rec`, rel/comp never). -/
theorem handle_publish_qos1_spec (w : World) (p : Publish) (c : Client)
    (hq : p.qos = QoS.AtLeastOnce) :
    (p.pid = none → handle_publish w p c = { w with errorLogs := w.errorLogs + 1 })
    ∧ (∀ k, p.pid = some k →
        handle_publish w p c
            = forward_to_subscribers (sendPacket w c (Packet.Puback k)) p
        ∧ (∃ rest, (handle_publish w p c).sent
            = w.sent ++ (c.id, Packet.Puback k) :: rest)
        ∧ (handle_publish w p c).broker = w.broker
        ∧ (∀ id, ∃ extraPub extraRec : List Publish,
            (getSession (handle_publish w p c) id).incoming_pub
                = (getSession w id).incoming_pub ++ extraPub
            ∧ (∀ x ∈ extraPub, x.qos = QoS.AtLeastOnce ∧ x.retain = false
                ∧ x.dup = false)
            ∧ (getSession (handle_publish w p c) id).incoming_rec
                = (getSession w id).incoming_rec ++ extraRec
            ∧ (∀ x ∈ extraRec, x.qos = QoS.ExactlyOnce ∧ x.retain = false
                ∧ x.dup = false)
            ∧ (getSession (handle_publish w p c) id).incoming_rel
                = (getSession w id).incoming_rel
            ∧ (getSession (handle_publish w p c) id).incoming_comp
                = (getSession w id).incoming_comp)) := by
  constructor
  · intro hp
    simp [handle_publish, hq, hp]
  · intro k hp
    have he : handle_publish w p c
        = forward_to_subscribers (sendPacket w c (Packet.Puback k)) p := by
      simp [handle_publish, hq, hp]
    obtain ⟨pubs0, pubs1, pubs2, hl0, hl1, hl2, hsent, hs0, hs1, hs2, hpub, hrec, hrel,
      hcomp, hbroker, herr⟩ := forward_spec_aux (sendPacket w c (Packet.Puback k)) p
    obtain ⟨l, hl⟩ := forward_sent_mono (sendPacket w c (Packet.Puback k)) p
    refine ⟨he, ⟨l, ?_⟩, ?_, ?_⟩
    · rw [he, hl]
      simp [sendPacket]
    · rw [he]
      exact hbroker
    · intro id
      refine ⟨_, _, by rw [he]; exact hpub id, ?_, by rw [he]; exact hrec id, ?_,
        by rw [he]; exact hrel id, by rw [he]; exact hcomp id⟩
      · intro x hx
        obtain ⟨pair, hpair, rfl⟩ := List.mem_map.mp hx
        have hmem := (List.mem_filter.mp hpair).1
        have := (List.of_mem_zip hmem).2
        obtain ⟨h1, h2, h3, _, _⟩ := hs1 pair.2 this
        exact ⟨h1, h2, h3⟩
      · intro x hx
        obtain ⟨pair, hpair, rfl⟩ := List.mem_map.mp hx
        have hmem := (List.mem_filter.mp hpair).1
        have := (List.of_mem_zip hmem).2
        obtain ⟨h1, h2, h3, _, _⟩ := hs2 pair.2 this
        exact ⟨h1, h2, h3⟩

/-- C7 witness: both branches at concrete inputs — a pid-less QoS-1
publish only bumps the error count; one with pid 4 expands to
PUBACK-then-fan-out and leaves the broker unchanged. -/
theorem handle_publish_qos1_spec_witness :
    handle_publish ⟨Broker.new, [], [], 0⟩
        ⟨false, QoS.AtLeastOnce, false, "t", none, []⟩ ⟨"p"⟩
      = ⟨Broker.new, [], [], 1⟩
    ∧ handle_publish ⟨Broker.new, [], [], 0⟩
        ⟨false, QoS.AtLeastOnce, false, "t", some 4, []⟩ ⟨"p"⟩
      = forward_to_subscribers
          (sendPacket ⟨Broker.new, [], [], 0⟩ ⟨"p"⟩ (Packet.Puback 4))
          ⟨false, QoS.AtLeastOnce, false, "t", some 4, []⟩
    ∧ (handle_publish ⟨Broker.new, [], [], 0⟩
        ⟨false, QoS.AtLeastOnce, false, "t", some 4, []⟩ ⟨"p"⟩).broker = Broker.new := by
  refine ⟨?_, ?_, ?_⟩
  · exact (handle_publish_qos1_spec ⟨Broker.new, [], [], 0⟩
      ⟨false, QoS.AtLeastOnce, false, "t", none, []⟩ ⟨"p"⟩ rfl).1 rfl
  · exact ((handle_publish_qos1_spec ⟨Broker.new, [], [], 0⟩
      ⟨false, QoS.AtLeastOnce, false, "t", some 4, []⟩ ⟨"p"⟩ rfl).2 4 rfl).1
  · exact ((handle_publish_qos1_spec ⟨Broker.new, [], [], 0⟩
      ⟨false, QoS.AtLeastOnce, false, "t", some 4, []⟩ ⟨"p"⟩ rfl).2 4 rfl).2.2.1

/-- C6: `handle_pubrel` sends PUBCOMP(pid) to the releasing client first
and unconditionally (the send log starts with it whatever else happens);
when the client's `remove_record` finds no record the handler does
nothing else — the result is exactly the input world with the single
PUBCOMP appended; when it finds a record the handler continues with the
fan-out of that record on the world in which the PUBCOMP is already sent
and the record removed. -/
theorem handle_pubrel_spec (w : World) (k : Nat) (c : Client) :
    (∃ rest, (handle_pubrel w k c).sent = w.sent ++ (c.id, Packet.Pubcomp k) :: rest)
    ∧ ((client_remove_record (getSession w c.id) k).1 = none →
        handle_pubrel w k c = sendPacket w c (Packet.Pubcomp k))
    ∧ (∀ rec s, client_remove_record (getSession w c.id) k = (some rec, s) →
        handle_pubrel w k c
          = [QoS.AtMostOnce, QoS.AtLeastOnce, QoS.ExactlyOnce].foldl
              (fun w qos => fanout_level w rec.topic_name qos rec.payload)
              (setSession (sendPacket w c (Packet.Pubcomp k)) c.id s)) := by
  refine ⟨?_, ?_, ?_⟩
  · rcases hrr : client_remove_record (getSession w c.id) k with ⟨o, s⟩
    cases o with
    | none =>
      refine ⟨[], ?_⟩
      simp only [handle_pubrel, getSession_sendPacket]
      rw [hrr]
      simp [sendPacket]
    | some rec =>
      obtain ⟨l, hl⟩ := fan3_sent_mono (setSession (sendPacket w c (Packet.Pubcomp k)) c.id s)
        rec.topic_name rec.payload
      refine ⟨l, ?_⟩
      have he : handle_pubrel w k c
          = [QoS.AtMostOnce, QoS.AtLeastOnce, QoS.ExactlyOnce].foldl
              (fun w qos => fanout_level w rec.topic_name qos rec.payload)
              (setSession (sendPacket w c (Packet.Pubcomp k)) c.id s) := by
        simp [handle_pubrel, getSession_sendPacket, hrr]
      rw [he, hl]
      simp [setSession, sendPacket]
  · intro h
    rcases hrr : client_remove_record (getSession w c.id) k with ⟨o, s⟩
    cases o with
    | none => simp [handle_pubrel, getSession_sendPacket, hrr]
    | some rec =>
      rw [hrr] at h
      simp at h
  · intro rec s hrr
    simp [handle_pubrel, getSession_sendPacket, hrr]

/-- C6 witness: with no matching record the handler's entire effect is
the PUBCOMP; with a record queued under pid 7 the handler equals
PUBCOMP-then-removal-then-fan-out at that record. -/
theorem handle_pubrel_spec_witness :
    handle_pubrel ⟨Broker.new, [], [], 0⟩ 7 ⟨"c"⟩
      = sendPacket ⟨Broker.new, [], [], 0⟩ ⟨"c"⟩ (Packet.Pubcomp 7)
    ∧ handle_pubrel
        ⟨Broker.new, [("c", ⟨[], [⟨false, QoS.ExactlyOnce, false, "t", some 7, []⟩],
          [], [], 1⟩)], [], 0⟩ 7 ⟨"c"⟩
      = [QoS.AtMostOnce, QoS.AtLeastOnce, QoS.ExactlyOnce].foldl
          (fun w qos => fanout_level w "t" qos [])
          (setSession (sendPacket
            ⟨Broker.new, [("c", ⟨[], [⟨false, QoS.ExactlyOnce, false, "t", some 7, []⟩],
              [], [], 1⟩)], [], 0⟩ ⟨"c"⟩ (Packet.Pubcomp 7)) "c"
            ⟨[], [], [], [], 1⟩) := by
  constructor
  · exact (handle_pubrel_spec ⟨Broker.new, [], [], 0⟩ 7 ⟨"c"⟩).2.1 (by decide)
  · exact (handle_pubrel_spec
      ⟨Broker.new, [("c", ⟨[], [⟨false, QoS.ExactlyOnce, false, "t", some 7, []⟩],
        [], [], 1⟩)], [], 0⟩ 7 ⟨"c"⟩).2.2
      ⟨false, QoS.ExactlyOnce, false, "t", some 7, []⟩ ⟨[], [], [], [], 1⟩ (by decide)

end Rumqttd
